import Mathlib

/-!
# Verification of the BeanGPT retrieval-and-ranking pipeline

Shallow embedding of `src/backend/services/pipeline.py` (score normalization,
score blending, DOI reconciliation, gene batch resolution, the streaming
synthesizer's error recovery, and the two orchestrators), together with
theorems settling the specification claims.

Modelling conventions:
* Python floats are modelled as rationals (`ℚ`).
* A Python `dict` is modelled as an association list in insertion order:
  inserting an existing key updates the value in place (keeping the key's
  original position), inserting a new key appends at the end.  This mirrors
  CPython's dict semantics (insertion-ordered, last write wins).
* External collaborators (OpenAI completions, Pinecone queries, the NCBI /
  UniProt lookup databases, the gene-mention extractor, the tabular bean-data
  capability) are opaque oracles passed in as parameters; exceptions raised by
  calls that the source wraps in `try`/`except` are modelled with
  `Except`/`Option`-valued oracles.
* The iteration order of the Python set union `set(a) | set(b)` in
  `combine_scores` is unspecified in CPython; it is modelled deterministically
  as "keys of the first dict, then the new keys of the second".  No theorem
  below depends on that order beyond concrete evaluations.
-/

namespace BeanGPT

/-- A Python `dict` with `String` keys: association list in insertion order. -/
abbrev StrMap (α : Type) : Type := List (String × α)

/-- `d[k] = v` on a Python dict: update in place if the key is present
(keeping its position), otherwise append at the end. -/
def dinsert {α : Type} (d : StrMap α) (k : String) (v : α) : StrMap α :=
  match d with
  | [] => [(k, v)]
  | p :: rest => if p.1 == k then (k, v) :: rest else p :: dinsert rest k v

/-- Python `d.get(k)` / `d[k]` (keys are unique in dicts built by `dinsert`,
so the first entry with the key is the entry). -/
def dlookup {α : Type} (d : StrMap α) (k : String) : Option α :=
  (d.find? (fun p => p.1 == k)).map Prod.snd

/-- Python `k in d`. -/
def dmem {α : Type} (d : StrMap α) (k : String) : Bool :=
  d.any (fun p => p.1 == k)

/-- A Python dict comprehension over a list of key/value pairs:
first-insertion position, last write wins. -/
def dictOfList {α : Type} (l : List (String × α)) : StrMap α :=
  l.foldl (fun d p => dinsert d p.1 p.2) []

/-- Python `min(scores)` (`none` on the empty list, where CPython raises). -/
def pyMin (l : List ℚ) : Option ℚ :=
  match l with
  | [] => none
  | x :: xs => some (xs.foldl min x)

/-- Python `max(scores)` (`none` on the empty list, where CPython raises). -/
def pyMax (l : List ℚ) : Option ℚ :=
  match l with
  | [] => none
  | x :: xs => some (xs.foldl max x)

/-- The `metadata` mapping of a Pinecone match.  `doi = none` models the
`"doi"` key being absent (so `metadata.get("doi", default)` yields the
default); `doi = some ""` models a present-but-empty value.  Likewise for
`summary`. -/
structure Metadata where
  doi : Option String
  summary : Option String
  deriving DecidableEq, Repr

/-- One Pinecone match: `{id, score, metadata}`. -/
structure Match where
  id : String
  score : ℚ
  metadata : Metadata
  deriving DecidableEq, Repr

/-- A Pinecone query result (the mapping holding the match list). -/
structure QueryResult where
  «matches» : List Match
  deriving DecidableEq, Repr

/-- `m["metadata"].get("doi", f"{m['id']}")` — the key under which
`normalize_scores` records a match: the metadata `doi` value whenever the
key is present (even when empty), else the match's own id. -/
def matchKey (m : Match) : String :=
  m.metadata.doi.getD m.id

/-- `pipeline.normalize_scores`: min-max scaling of the raw scores, keyed by
`matchKey`; every score maps to `0.0` when the list is empty or all raw
scores are equal (the dict comprehension makes later «matches» overwrite
earlier ones on key collisions). -/
def normalize_scores («matches» : List Match) : StrMap ℚ :=
  let scores := «matches».map (fun m => m.score)
  if scores.isEmpty ∨ pyMax scores = pyMin scores then
    dictOfList («matches».map (fun m => (matchKey m, (0 : ℚ))))
  else
    let mx := (pyMax scores).getD 0
    let mn := (pyMin scores).getD 0
    dictOfList («matches».map (fun m => (matchKey m, (m.score - mn) / (mx - mn))))

/-- The value `normalize_scores` computes for one match of the list (min-max
scaled score, or `0` in the degenerate branch). -/
def normValue («matches» : List Match) (m : Match) : ℚ :=
  let scores := «matches».map (fun m => m.score)
  if scores.isEmpty ∨ pyMax scores = pyMin scores then 0
  else (m.score - (pyMin scores).getD 0) / ((pyMax scores).getD 0 - (pyMin scores).getD 0)

/-- `pipeline.combine_scores`: blended score `α·bge + (1-α)·pub` over the
union of the key sets, keeping only entries whose score exceeds `0.05`.
The set union is iterated as: keys of `bge_scores` first, then the keys of
`pub_scores` not already present. -/
def combine_scores (bge_scores pub_scores : StrMap ℚ) (alpha : ℚ) : StrMap ℚ :=
  let all_sources :=
    bge_scores.map Prod.fst ++
      (pub_scores.map Prod.fst).filter (fun k => !(dmem bge_scores k))
  all_sources.foldl
    (fun combined src =>
      let bge_val := (dlookup bge_scores src).getD 0
      let pub_val := (dlookup pub_scores src).getD 0
      let score := alpha * bge_val + (1 - alpha) * pub_val
      if score > 0.05 then dinsert combined src score else combined)
    []

/-- The blended score of one identifier, before thresholding. -/
def blendedScore (bge_scores pub_scores : StrMap ℚ) (alpha : ℚ) (k : String) : ℚ :=
  alpha * (dlookup bge_scores k).getD 0 + (1 - alpha) * (dlookup pub_scores k).getD 0

/-! ## Dictionary lemmas -/

lemma dlookup_nil {α : Type} (k : String) : dlookup ([] : StrMap α) k = none := rfl

lemma dlookup_cons {α : Type} (p : String × α) (d : StrMap α) (k : String) :
    dlookup (p :: d) k = if p.1 = k then some p.2 else dlookup d k := by
  by_cases h : p.1 = k
  · rw [dlookup, List.find?_cons_of_pos _ (by simpa using h), if_pos h]
    rfl
  · rw [dlookup, List.find?_cons_of_neg _ (by simpa using h), if_neg h]
    rfl

lemma dinsert_cons_pos {α : Type} (p : String × α) (rest : StrMap α) (k : String) (v : α)
    (h : p.1 = k) : dinsert (p :: rest) k v = (k, v) :: rest := by
  simp [dinsert, h]

lemma dinsert_cons_neg {α : Type} (p : String × α) (rest : StrMap α) (k : String) (v : α)
    (h : ¬ p.1 = k) : dinsert (p :: rest) k v = p :: dinsert rest k v := by
  simp [dinsert, h]

lemma dlookup_dinsert {α : Type} (d : StrMap α) (k : String) (v : α) (k' : String) :
    dlookup (dinsert d k v) k' = if k' = k then some v else dlookup d k' := by
  induction d with
  | nil =>
      show dlookup [(k, v)] k' = _
      rw [dlookup_cons, dlookup_nil]
      by_cases h : k' = k
      · simp [h]
      · rw [if_neg (fun hh => h hh.symm), if_neg h]
  | cons p rest ih =>
      by_cases hpk : p.1 = k
      · rw [dinsert_cons_pos p rest k v hpk, dlookup_cons, dlookup_cons]
        by_cases h : k' = k
        · simp [h]
        · rw [if_neg (fun hh => h hh.symm), if_neg h,
            if_neg (fun hh : p.1 = k' => h (hh.symm.trans hpk))]
      · rw [dinsert_cons_neg p rest k v hpk, dlookup_cons, dlookup_cons, ih]
        by_cases h : p.1 = k'
        · have hne : ¬ k' = k := fun hk => hpk (h.trans hk)
          simp [h, hne]
        · simp [h]

lemma mem_keys_iff_dlookup {α : Type} (d : StrMap α) (k : String) :
    k ∈ d.map Prod.fst ↔ (dlookup d k).isSome := by
  induction d with
  | nil => simp [dlookup_nil]
  | cons p rest ih =>
      rw [dlookup_cons, List.map_cons]
      by_cases h : p.1 = k
      · simp [h]
      · have h' : ¬ k = p.1 := fun hh => h hh.symm
        simp [List.mem_cons, h, h', ih]

lemma foldl_dinsert_lookup {α : Type} (l : List (String × α)) (d : StrMap α) (k : String) :
    dlookup (l.foldl (fun d p => dinsert d p.1 p.2) d) k =
      ((l.reverse.find? (fun p => p.1 == k)).map Prod.snd).or (dlookup d k) := by
  induction l generalizing d with
  | nil => simp
  | cons p rest ih =>
      rw [List.foldl_cons, ih, List.reverse_cons, List.find?_append]
      rcases hf : rest.reverse.find? (fun p => p.1 == k) with _ | q
      · rw [hf]
        simp only [Option.map_none', Option.none_or]
        rw [dlookup_dinsert]
        by_cases h : k = p.1
        · rw [if_pos h, List.find?_cons_of_pos _ (by simpa using h.symm)]
          simp
        · rw [if_neg h, List.find?_cons_of_neg _ (by simpa using fun hh => h hh.symm),
            List.find?_nil]
          simp
      · rw [hf]
        simp

lemma dlookup_dictOfList {α : Type} (l : List (String × α)) (k : String) :
    dlookup (dictOfList l) k = (l.reverse.find? (fun p => p.1 == k)).map Prod.snd := by
  rw [dictOfList, foldl_dinsert_lookup, dlookup_nil, Option.or_none]

lemma mem_keys_dictOfList {α : Type} (l : List (String × α)) (k : String) :
    k ∈ (dictOfList l).map Prod.fst ↔ k ∈ l.map Prod.fst := by
  rw [mem_keys_iff_dlookup, dlookup_dictOfList]
  rcases hf : l.reverse.find? (fun p => p.1 == k) with _ | q
  · rw [hf]
    rw [List.find?_eq_none] at hf
    simp only [Option.map_none', Option.isSome_none, Bool.false_eq_true, false_iff]
    intro hmem
    rcases List.mem_map.mp hmem with ⟨p, hp, hpk⟩
    exact absurd (by simpa using hpk) (by simpa using hf p (List.mem_reverse.mpr hp))
  · have hq := List.mem_of_find?_eq_some hf
    have hqk : q.1 = k := by simpa using List.find?_some hf
    rw [hf]
    simp only [Option.map_some', Option.isSome_some, true_iff]
    exact List.mem_map.mpr ⟨q, List.mem_reverse.mp hq, hqk⟩

/-- In a list of pairs with pairwise-distinct keys, two entries with the same
key coincide. -/
lemma entry_eq_of_nodup_keys {α : Type} {l : List (String × α)} {q : String × α}
    {k : String} {v : α} (hnd : (l.map Prod.fst).Nodup) (hq : q ∈ l)
    (hmem : (k, v) ∈ l) (hqk : q.1 = k) : q = (k, v) := by
  induction l with
  | nil => cases hq
  | cons p rest ih =>
      rcases List.nodup_cons.mp hnd with ⟨hp, hrest⟩
      rcases List.mem_cons.mp hq with rfl | hq'
      · rcases List.mem_cons.mp hmem with h | hmem'
        · exact h.symm
        · exact absurd (List.mem_map.mpr ⟨(k, v), hmem', rfl⟩) (hqk ▸ hp)
      · rcases List.mem_cons.mp hmem with h | hmem'
        · have hk : p.1 = k := by rw [← h]
          exact absurd (List.mem_map.mpr ⟨q, hq', hqk.trans hk.symm⟩) hp
        · exact ih hrest hq' hmem'

/-- In a map whose keys are pairwise distinct, the (unique) entry with key `k`
determines the lookup. -/
lemma dlookup_dictOfList_of_nodup {α : Type} (l : List (String × α)) (k : String) (v : α)
    (hnd : (l.map Prod.fst).Nodup) (hmem : (k, v) ∈ l) :
    dlookup (dictOfList l) k = some v := by
  rw [dlookup_dictOfList]
  rcases hf : l.reverse.find? (fun p => p.1 == k) with _ | q
  · rw [List.find?_eq_none] at hf
    have h1 := hf (k, v) (List.mem_reverse.mpr hmem)
    simp at h1
  · have hq : q ∈ l := List.mem_reverse.mp (List.mem_of_find?_eq_some hf)
    have hqk : q.1 = k := by simpa using List.find?_some hf
    rw [hf, entry_eq_of_nodup_keys hnd hq hmem hqk]
    rfl

lemma mem_keys_dinsert {α : Type} (d : StrMap α) (k : String) (v : α) (a : String) :
    a ∈ (dinsert d k v).map Prod.fst ↔ a ∈ d.map Prod.fst ∨ a = k := by
  rw [mem_keys_iff_dlookup, mem_keys_iff_dlookup, dlookup_dinsert]
  by_cases h : a = k <;> simp [h]

lemma nodup_keys_dinsert {α : Type} (d : StrMap α) (k : String) (v : α)
    (h : (d.map Prod.fst).Nodup) : ((dinsert d k v).map Prod.fst).Nodup := by
  induction d with
  | nil => simp [dinsert]
  | cons p rest ih =>
      rcases List.nodup_cons.mp h with ⟨hp, hrest⟩
      by_cases hpk : p.1 = k
      · rw [dinsert_cons_pos p rest k v hpk, List.map_cons]
        exact List.nodup_cons.mpr ⟨fun hmem => hp (by rw [hpk]; exact hmem), hrest⟩
      · rw [dinsert_cons_neg p rest k v hpk, List.map_cons]
        refine List.nodup_cons.mpr ⟨?_, ih hrest⟩
        intro hmem
        rcases (mem_keys_dinsert rest k v p.1).mp hmem with h1 | h1
        · exact hp h1
        · exact hpk h1

lemma nodup_keys_dictOfList {α : Type} (l : List (String × α)) :
    ((dictOfList l).map Prod.fst).Nodup := by
  suffices h : ∀ (d : StrMap α), (d.map Prod.fst).Nodup →
      ((l.foldl (fun d p => dinsert d p.1 p.2) d).map Prod.fst).Nodup from
    h [] (by simp)
  induction l with
  | nil => intro d hd; simpa using hd
  | cons p rest ih =>
      intro d hd
      exact ih (dinsert d p.1 p.2) (nodup_keys_dinsert d p.1 p.2 hd)

lemma length_dictOfList_lt {α : Type} (l : List (String × α))
    (hdup : ¬ (l.map Prod.fst).Nodup) : (dictOfList l).length < l.length := by
  have hkeys : ((dictOfList l).map Prod.fst).Nodup := nodup_keys_dictOfList l
  have hsub : ∀ a, a ∈ (dictOfList l).map Prod.fst → a ∈ l.map Prod.fst :=
    fun a ha => (mem_keys_dictOfList l a).mp ha
  have h1 : ((dictOfList l).map Prod.fst).length ≤ ((l.map Prod.fst).toFinset).card := by
    rw [← List.toFinset_card_of_nodup hkeys]
    exact Finset.card_le_card (fun a ha => List.mem_toFinset.mpr
      (hsub a (List.mem_toFinset.mp ha)))
  have h2 : ((l.map Prod.fst).toFinset).card < (l.map Prod.fst).length := by
    rcases lt_or_eq_of_le (List.toFinset_card_le (l.map Prod.fst)) with h | h
    · exact h
    · rw [List.card_toFinset] at h
      exact absurd (List.dedup_eq_self.mp
        ((List.dedup_sublist _).eq_of_length h)) hdup
  calc (dictOfList l).length = ((dictOfList l).map Prod.fst).length := by simp
    _ ≤ ((l.map Prod.fst).toFinset).card := h1
    _ < (l.map Prod.fst).length := h2
    _ = l.length := by simp

lemma mem_dinsert_sub {α : Type} {d : StrMap α} {k : String} {v : α} {p : String × α}
    (hp : p ∈ dinsert d k v) : p ∈ d ∨ p = (k, v) := by
  induction d with
  | nil => simpa [dinsert] using hp
  | cons q rest ih =>
      by_cases hqk : q.1 = k
      · rw [dinsert_cons_pos q rest k v hqk] at hp
        rcases List.mem_cons.mp hp with h | h
        · exact Or.inr h
        · exact Or.inl (List.mem_cons_of_mem q h)
      · rw [dinsert_cons_neg q rest k v hqk] at hp
        rcases List.mem_cons.mp hp with h | h
        · exact Or.inl (h ▸ List.mem_cons_self q rest)
        · rcases ih h with h1 | h1
          · exact Or.inl (List.mem_cons_of_mem q h1)
          · exact Or.inr h1

/-- Every entry of a dict built from a pair list is one of the pairs. -/
lemma mem_dictOfList_sub {α : Type} {l : List (String × α)} {p : String × α}
    (hp : p ∈ dictOfList l) : p ∈ l := by
  suffices h : ∀ (d : StrMap α), p ∈ l.foldl (fun d q => dinsert d q.1 q.2) d →
      p ∈ d ∨ p ∈ l from
    (h [] hp).resolve_left (by simp)
  clear hp
  induction l with
  | nil => intro d hd; exact Or.inl hd
  | cons q rest ih =>
      intro d hd
      rcases ih (dinsert d q.1 q.2) hd with h1 | h1
      · rcases mem_dinsert_sub h1 with h2 | h2
        · exact Or.inl h2
        · exact Or.inr (by simp [h2])
      · exact Or.inr (List.mem_cons_of_mem q h1)

/-! ## Python `min` / `max` over a list -/

lemma foldl_min_le_init (x : ℚ) (xs : List ℚ) : xs.foldl min x ≤ x := by
  induction xs generalizing x with
  | nil => exact le_refl x
  | cons y ys ih => exact le_trans (ih (min x y)) (min_le_left x y)

lemma foldl_min_le_mem {b : ℚ} (x : ℚ) (xs : List ℚ) (hb : b ∈ xs) :
    xs.foldl min x ≤ b := by
  induction xs generalizing x with
  | nil => cases hb
  | cons y ys ih =>
      rcases List.mem_cons.mp hb with rfl | hb'
      · exact le_trans (foldl_min_le_init (min x b) ys) (min_le_right x b)
      · exact ih (min x y) hb'

lemma foldl_min_mem (x : ℚ) (xs : List ℚ) : xs.foldl min x ∈ x :: xs := by
  induction xs generalizing x with
  | nil => simp
  | cons y ys ih =>
      rw [List.foldl_cons]
      rcases min_choice x y with h2 | h2 <;> rw [h2]
      · rcases List.mem_cons.mp (ih x) with h1 | h1
        · simp [h1]
        · simp [List.mem_cons_of_mem, h1]
      · rcases List.mem_cons.mp (ih y) with h1 | h1
        · simp [h1]
        · simp [List.mem_cons_of_mem, h1]

lemma le_foldl_max_init (x : ℚ) (xs : List ℚ) : x ≤ xs.foldl max x := by
  induction xs generalizing x with
  | nil => exact le_refl x
  | cons y ys ih => exact le_trans (le_max_left x y) (ih (max x y))

lemma le_foldl_max_mem {b : ℚ} (x : ℚ) (xs : List ℚ) (hb : b ∈ xs) :
    b ≤ xs.foldl max x := by
  induction xs generalizing x with
  | nil => cases hb
  | cons y ys ih =>
      rcases List.mem_cons.mp hb with rfl | hb'
      · exact le_trans (le_max_right x b) (le_foldl_max_init (max x b) ys)
      · exact ih (max x y) hb'

lemma foldl_max_mem (x : ℚ) (xs : List ℚ) : xs.foldl max x ∈ x :: xs := by
  induction xs generalizing x with
  | nil => simp
  | cons y ys ih =>
      rw [List.foldl_cons]
      rcases max_choice x y with h2 | h2 <;> rw [h2]
      · rcases List.mem_cons.mp (ih x) with h1 | h1
        · simp [h1]
        · simp [List.mem_cons_of_mem, h1]
      · rcases List.mem_cons.mp (ih y) with h1 | h1
        · simp [h1]
        · simp [List.mem_cons_of_mem, h1]

lemma pyMin_le {l : List ℚ} {a b : ℚ} (ha : pyMin l = some a) (hb : b ∈ l) : a ≤ b := by
  rcases l with _ | ⟨x, xs⟩
  · cases hb
  · rcases List.mem_cons.mp hb with rfl | hb'
    · exact (Option.some_inj.mp ha) ▸ foldl_min_le_init b xs
    · exact (Option.some_inj.mp ha) ▸ foldl_min_le_mem x xs hb'

lemma pyMin_mem {l : List ℚ} {a : ℚ} (ha : pyMin l = some a) : a ∈ l := by
  rcases l with _ | ⟨x, xs⟩
  · cases ha
  · exact (Option.some_inj.mp ha) ▸ foldl_min_mem x xs

lemma le_pyMax {l : List ℚ} {a b : ℚ} (ha : pyMax l = some a) (hb : b ∈ l) : b ≤ a := by
  rcases l with _ | ⟨x, xs⟩
  · cases hb
  · rcases List.mem_cons.mp hb with rfl | hb'
    · exact (Option.some_inj.mp ha) ▸ le_foldl_max_init b xs
    · exact (Option.some_inj.mp ha) ▸ le_foldl_max_mem x xs hb'

lemma pyMax_mem {l : List ℚ} {a : ℚ} (ha : pyMax l = some a) : a ∈ l := by
  rcases l with _ | ⟨x, xs⟩
  · cases ha
  · exact (Option.some_inj.mp ha) ▸ foldl_max_mem x xs

lemma pyMax_isSome {l : List ℚ} (h : l ≠ []) : ∃ a, pyMax l = some a := by
  rcases l with _ | ⟨x, xs⟩
  · exact absurd rfl h
  · exact ⟨xs.foldl max x, rfl⟩

lemma pyMin_isSome {l : List ℚ} (h : l ≠ []) : ∃ a, pyMin l = some a := by
  rcases l with _ | ⟨x, xs⟩
  · exact absurd rfl h
  · exact ⟨xs.foldl min x, rfl⟩

/-! ## Characterizations of `normalize_scores` and `combine_scores` -/

lemma normalize_scores_eq_dict (ms : List Match) :
    normalize_scores ms = dictOfList (ms.map (fun m => (matchKey m, normValue ms m))) := by
  rw [normalize_scores]
  by_cases h : (ms.map (fun m => m.score)).isEmpty ∨
      pyMax (ms.map (fun m => m.score)) = pyMin (ms.map (fun m => m.score))
  · rw [if_pos h]
    congr 1
    refine List.map_congr_left (fun m _ => ?_)
    rw [normValue, if_pos h]
  · rw [if_neg h]
    show dictOfList _ = _
    congr 1
    refine List.map_congr_left (fun m _ => ?_)
    rw [normValue, if_neg h]

lemma dlookup_normalize_scores (ms : List Match) (k : String) :
    dlookup (normalize_scores ms) k =
      (ms.reverse.find? (fun m => matchKey m == k)).map (normValue ms) := by
  rw [normalize_scores_eq_dict, dlookup_dictOfList, ← List.map_reverse,
    List.find?_map, Option.map_map]
  rfl

lemma keys_normalize_scores (ms : List Match) (k : String) :
    k ∈ (normalize_scores ms).map Prod.fst ↔ k ∈ ms.map matchKey := by
  rw [normalize_scores_eq_dict, mem_keys_dictOfList, List.map_map]
  rfl

/-- The value branch of `normalize_scores` in the non-degenerate case. -/
lemma normValue_nondegenerate (ms : List Match) (m : Match)
    (h : ¬ ((ms.map (fun m => m.score)).isEmpty ∨
      pyMax (ms.map (fun m => m.score)) = pyMin (ms.map (fun m => m.score)))) :
    normValue ms m = (m.score - (pyMin (ms.map (fun m => m.score))).getD 0) /
      ((pyMax (ms.map (fun m => m.score))).getD 0 - (pyMin (ms.map (fun m => m.score))).getD 0) := by
  rw [normValue, if_neg h]

lemma foldl_threshold_lookup (sc : String → ℚ) (srcs : List String) (acc : StrMap ℚ)
    (k : String) :
    dlookup (srcs.foldl
      (fun combined src =>
        if sc src > 0.05 then dinsert combined src (sc src) else combined) acc) k =
      if k ∈ srcs ∧ sc k > 0.05 then some (sc k) else dlookup acc k := by
  induction srcs generalizing acc with
  | nil => simp
  | cons s rest ih =>
      rw [List.foldl_cons, ih]
      by_cases hmem : k ∈ rest ∧ sc k > 0.05
      · rw [if_pos hmem, if_pos ⟨List.mem_cons_of_mem s hmem.1, hmem.2⟩]
      · rw [if_neg hmem]
        by_cases hks : k = s
        · subst hks
          by_cases hsc : sc k > 0.05
          · rw [if_pos hsc, dlookup_dinsert, if_pos rfl,
              if_pos ⟨List.mem_cons_self k rest, hsc⟩]
          · rw [if_neg hsc, if_neg (fun hc => hsc hc.2)]
        · by_cases hsc : sc s > 0.05
          · rw [if_pos hsc, dlookup_dinsert, if_neg hks,
              if_neg (fun hc => hmem ⟨(List.mem_cons.mp hc.1).resolve_left hks, hc.2⟩)]
          · rw [if_neg hsc,
              if_neg (fun hc => hmem ⟨(List.mem_cons.mp hc.1).resolve_left hks, hc.2⟩)]

/-- `combine_scores` as a single lookup equation: an identifier is present
with its blended score exactly when it is a key of either input map and its
blended score exceeds the `0.05` cutoff. -/
lemma combine_scores_lookup (bge_scores pub_scores : StrMap ℚ) (alpha : ℚ) (k : String) :
    dlookup (combine_scores bge_scores pub_scores alpha) k =
      if (k ∈ bge_scores.map Prod.fst ∨ k ∈ pub_scores.map Prod.fst) ∧
          blendedScore bge_scores pub_scores alpha k > 0.05
      then some (blendedScore bge_scores pub_scores alpha k) else none := by
  have hrw : combine_scores bge_scores pub_scores alpha =
      (bge_scores.map Prod.fst ++
        (pub_scores.map Prod.fst).filter (fun k => !(dmem bge_scores k))).foldl
        (fun combined src =>
          if blendedScore bge_scores pub_scores alpha src > 0.05 then
            dinsert combined src (blendedScore bge_scores pub_scores alpha src)
          else combined) [] := rfl
  rw [hrw, foldl_threshold_lookup, dlookup_nil]
  have hunion : k ∈ bge_scores.map Prod.fst ++
        (pub_scores.map Prod.fst).filter (fun k => !(dmem bge_scores k)) ↔
      (k ∈ bge_scores.map Prod.fst ∨ k ∈ pub_scores.map Prod.fst) := by
    simp only [List.mem_append, List.mem_filter, Bool.not_eq_eq_eq_not, Bool.not_true,
      dmem, List.any_eq_false, beq_iff_eq]
    constructor
    · rintro (h | ⟨h, _⟩)
      · exact Or.inl h
      · exact Or.inr h
    · rintro (h | h)
      · exact Or.inl h
      · by_cases hb : k ∈ bge_scores.map Prod.fst
        · exact Or.inl hb
        · refine Or.inr ⟨h, fun p hp => ?_⟩
          intro hpk
          exact hb (List.mem_map.mpr ⟨p, hp, hpk⟩)

  by_cases hc : (k ∈ bge_scores.map Prod.fst ∨ k ∈ pub_scores.map Prod.fst) ∧
      blendedScore bge_scores pub_scores alpha k > 0.05
  · rw [if_pos hc, if_pos ⟨hunion.mpr hc.1, hc.2⟩]
  · rw [if_neg hc, if_neg (fun hh => hc ⟨hunion.mp hh.1, hh.2⟩)]

/-- Every value stored by `normalize_scores` is the `normValue` of some match
of the input list. -/
lemma value_of_normalize_scores {ms : List Match} {v : ℚ}
    (hv : v ∈ (normalize_scores ms).map Prod.snd) : ∃ m ∈ ms, v = normValue ms m := by
  rcases List.mem_map.mp hv with ⟨p, hp, hpv⟩
  rw [normalize_scores_eq_dict] at hp
  rcases List.mem_map.mp (mem_dictOfList_sub hp) with ⟨m, hm, hmp⟩
  exact ⟨m, hm, by rw [← hpv, ← hmp]⟩

/-! ## Claim C1 -/

/-- Two matches sharing the metadata doi `"X"`, with distinct raw scores:
the later (score `0`) silently overwrites the earlier (score `1`). -/
def exDupKey : List Match :=
  [⟨"a", 1, ⟨some "X", none⟩⟩, ⟨"b", 0, ⟨some "X", none⟩⟩]

/-- C1 counterexample: a non-empty match list with non-equal raw scores in
which no normalized entry equals `1.0` — the match attaining the maximum raw
score has its key overwritten by a later match with the same doi, so the
claim "the entry of the maximum raw score is mapped to 1.0" fails. -/
theorem c1_counterexample :
    exDupKey ≠ [] ∧
    pyMax (exDupKey.map (fun m => m.score)) ≠ pyMin (exDupKey.map (fun m => m.score)) ∧
    normalize_scores exDupKey = [("X", 0)] ∧
    ∀ v ∈ (normalize_scores exDupKey).map Prod.snd, v ≠ 1 := by
  refine ⟨by simp [exDupKey], ?_⟩
  norm_num [exDupKey, normalize_scores, pyMax, pyMin, matchKey, dictOfList, dinsert]

/-- C1 (amended): `normalize_scores` never raises (it is a total function in
this embedding); the empty sequence yields the empty map; if all raw scores
are equal every normalized score is exactly `0.0`; and if the raw scores are
not all equal, every stored value lies in `[0, 1]`, and — provided the
identifier keys of the matches are pairwise distinct — the entry of a match
attaining the maximum raw score is `1.0` and the entry of a match attaining
the minimum raw score is `0.0`. -/
theorem normalize_scores_spec (ms : List Match) :
    (normalize_scores [] = []) ∧
    ((∀ x ∈ ms.map (fun m => m.score), ∀ y ∈ ms.map (fun m => m.score), x = y) →
      ∀ v ∈ (normalize_scores ms).map Prod.snd, v = 0) ∧
    (pyMax (ms.map (fun m => m.score)) ≠ pyMin (ms.map (fun m => m.score)) →
      (∀ v ∈ (normalize_scores ms).map Prod.snd, 0 ≤ v ∧ v ≤ 1) ∧
      ((ms.map matchKey).Nodup → ∀ m ∈ ms,
        (pyMax (ms.map (fun m => m.score)) = some m.score →
          dlookup (normalize_scores ms) (matchKey m) = some 1) ∧
        (pyMin (ms.map (fun m => m.score)) = some m.score →
          dlookup (normalize_scores ms) (matchKey m) = some 0))) := by
  refine ⟨rfl, ?_, ?_⟩
  · -- all raw scores equal: every value is 0
    intro hall v hv
    have hcond : (ms.map (fun m => m.score)).isEmpty ∨
        pyMax (ms.map (fun m => m.score)) = pyMin (ms.map (fun m => m.score)) := by
      by_cases hsc : ms.map (fun m => m.score) = []
      · exact Or.inl (by simp [hsc])
      · obtain ⟨mx, hmx⟩ := pyMax_isSome hsc
        obtain ⟨mn, hmn⟩ := pyMin_isSome hsc
        have hxy : mx = mn := hall mx (pyMax_mem hmx) mn (pyMin_mem hmn)
        exact Or.inr (by rw [hmx, hmn, hxy])
    rcases value_of_normalize_scores hv with ⟨m, _, rfl⟩
    rw [normValue, if_pos hcond]
  · -- non-degenerate case
    intro hne
    have hscne : ms.map (fun m => m.score) ≠ [] := by
      intro hsc
      exact hne (by rw [hsc]; rfl)
    obtain ⟨mx, hmx⟩ := pyMax_isSome hscne
    obtain ⟨mn, hmn⟩ := pyMin_isSome hscne
    have hmxmn : mn < mx := by
      rcases lt_or_eq_of_le (pyMin_le hmn (pyMax_mem hmx)) with h | h
      · exact h
      · exact absurd (by rw [hmx, hmn, h]) hne
    have hcond : ¬ ((ms.map (fun m => m.score)).isEmpty ∨
        pyMax (ms.map (fun m => m.score)) = pyMin (ms.map (fun m => m.score))) := by
      rintro (h | h)
      · exact hscne (List.isEmpty_iff.mp h)
      · exact hne h
    have hsub : (0 : ℚ) < mx - mn := sub_pos.mpr hmxmn
    constructor
    · -- all values in [0, 1]
      intro v hv
      rcases value_of_normalize_scores hv with ⟨m, hm, rfl⟩
      rw [normValue_nondegenerate ms m hcond, hmx, hmn]
      simp only [Option.getD_some]
      have hs1 : mn ≤ m.score := pyMin_le hmn (List.mem_map.mpr ⟨m, hm, rfl⟩)
      have hs2 : m.score ≤ mx := le_pyMax hmx (List.mem_map.mpr ⟨m, hm, rfl⟩)
      constructor
      · exact div_nonneg (sub_nonneg.mpr hs1) (le_of_lt hsub)
      · exact (div_le_one hsub).mpr (sub_le_sub_right hs2 mn)
    · -- max ↦ 1, min ↦ 0 when keys are pairwise distinct
      intro hnd m hm
      have hkeys : ((ms.map (fun m => (matchKey m, normValue ms m))).map Prod.fst).Nodup := by
        rw [List.map_map]
        exact hnd
      have hlk : dlookup (normalize_scores ms) (matchKey m) = some (normValue ms m) := by
        rw [normalize_scores_eq_dict]
        exact dlookup_dictOfList_of_nodup _ _ _ hkeys (List.mem_map.mpr ⟨m, hm, rfl⟩)
      constructor
      · intro hsmax
        have hmxs : mx = m.score := Option.some_inj.mp (hmx.symm.trans hsmax)
        rw [hlk, normValue_nondegenerate ms m hcond, hmx, hmn]
        simp only [Option.getD_some]
        rw [← hmxs, div_self (ne_of_gt hsub)]
      · intro hsmin
        have hmns : mn = m.score := Option.some_inj.mp (hmn.symm.trans hsmin)
        rw [hlk, normValue_nondegenerate ms m hcond, hmx, hmn]
        simp only [Option.getD_some]
        rw [← hmns, sub_self, zero_div]

/-- Two matches with distinct dois `"X"`, `"Y"` and raw scores `0`, `1`. -/
def exTwo : List Match :=
  [⟨"a", 0, ⟨some "X", none⟩⟩, ⟨"b", 1, ⟨some "Y", none⟩⟩]

/-- Witness for the amended C1 at a concrete input: the max-score match maps
to `1.0` and the min-score match maps to `0.0`. -/
theorem c1_witness :
    dlookup (normalize_scores exTwo) "Y" = some 1 ∧
    dlookup (normalize_scores exTwo) "X" = some 0 := by
  have h := (normalize_scores_spec exTwo).2.2 (by decide)
  exact ⟨(h.2 (by decide) ⟨"b", 1, ⟨some "Y", none⟩⟩ (by decide)).1 (by decide),
    (h.2 (by decide) ⟨"a", 0, ⟨some "X", none⟩⟩ (by decide)).2 (by decide)⟩

/-! ## Claim C2 -/

/-- A match whose metadata doi field is present but empty, and a match whose
doi carries surrounding whitespace. -/
def exC2 : List Match :=
  [⟨"a", 0, ⟨some "", none⟩⟩, ⟨"b", 1, ⟨some " D ", none⟩⟩]

/-- C2 counterexample: `normalize_scores` keys a match with a present-but-empty
doi field by the empty string (not by the match's own identifier `"a"`), and
stores the doi verbatim, untrimmed (`" D "`, not `"D"`). -/
theorem c2_counterexample :
    normalize_scores exC2 = [("", 0), (" D ", 1)] ∧
    "a" ∉ (normalize_scores exC2).map Prod.fst ∧
    "D" ∉ (normalize_scores exC2).map Prod.fst := by
  norm_num [exC2, normalize_scores, pyMax, pyMin, matchKey, dictOfList, dinsert]
  all_goals simp

/-- C2 (amended): the key under which `normalize_scores` records a match is
the metadata doi field verbatim (untrimmed, even when it is the empty string)
whenever the field is present, and the match's own identifier exactly when
the field is absent. -/
theorem normalize_scores_key_precedence (ms : List Match) (m : Match) (hm : m ∈ ms) :
    (∀ d, m.metadata.doi = some d → d ∈ (normalize_scores ms).map Prod.fst) ∧
    (m.metadata.doi = none → m.id ∈ (normalize_scores ms).map Prod.fst) := by
  constructor
  · intro d hd
    rw [keys_normalize_scores]
    exact List.mem_map.mpr ⟨m, hm, by rw [matchKey, hd]; rfl⟩
  · intro hd
    rw [keys_normalize_scores]
    exact List.mem_map.mpr ⟨m, hm, by rw [matchKey, hd]; rfl⟩

/-- Witness for the amended C2: a present-but-empty doi is recorded under the
key `""`. -/
theorem c2_witness : "" ∈ (normalize_scores exC2).map Prod.fst :=
  (normalize_scores_key_precedence exC2 ⟨"a", 0, ⟨some "", none⟩⟩ (by decide)).1 "" rfl

/-! ## Claim C10 -/

/-- C10: when two matches of the input resolve to the same identifier key,
the dict comprehension in `normalize_scores` makes the later match silently
overwrite the earlier one — every key of the output maps to the normalized
score of the *last* match with that key, and the output has strictly fewer
entries than the input has matches. -/
theorem normalize_scores_last_write_wins (ms : List Match) (i j : ℕ)
    (hi : i < ms.length) (hj : j < ms.length) (hij : i < j)
    (hkey : matchKey (ms.get ⟨i, hi⟩) = matchKey (ms.get ⟨j, hj⟩)) :
    (∀ k, dlookup (normalize_scores ms) k =
      (ms.reverse.find? (fun m => matchKey m == k)).map (normValue ms)) ∧
    (normalize_scores ms).length < ms.length := by
  constructor
  · exact fun k => dlookup_normalize_scores ms k
  · rw [normalize_scores_eq_dict]
    have hdup : ¬ ((ms.map (fun m => (matchKey m, normValue ms m))).map Prod.fst).Nodup := by
      rw [List.map_map]
      intro hnd
      have hnd' : (ms.map matchKey).Nodup := by
        convert hnd using 1
      have hlen : ms.length = (ms.map matchKey).length := (List.length_map ms matchKey).symm
      have h1 : (ms.map matchKey).get ⟨i, by rw [← hlen]; exact hi⟩ =
          (ms.map matchKey).get ⟨j, by rw [← hlen]; exact hj⟩ := by
        rw [List.get_map, List.get_map]
        exact hkey
      have h2 := (List.Nodup.get_inj_iff hnd').mp h1
      have h3 : i = j := congrArg Fin.val h2
      exact absurd h3 (Nat.ne_of_lt hij)
    have h := length_dictOfList_lt _ hdup
    calc (dictOfList (ms.map (fun m => (matchKey m, normValue ms m)))).length
        < (ms.map (fun m => (matchKey m, normValue ms m))).length := h
      _ = ms.length := List.length_map ms _

/-- Witness for C10 at a concrete input: two matches share the key `"X"`, the
output has a single entry for `"X"` carrying the later match's normalized
score (`0`), and the output is shorter than the input. -/
theorem c10_witness :
    dlookup (normalize_scores exDupKey) "X" =
      (exDupKey.reverse.find? (fun m => matchKey m == "X")).map (normValue exDupKey) ∧
    (normalize_scores exDupKey).length < exDupKey.length := by
  have h := normalize_scores_last_write_wins exDupKey 0 1 (by decide) (by decide)
    (by decide) (by decide)
  exact ⟨h.1 "X", h.2⟩

/-! ## Claim C3 -/

/-- C3: `combine_scores` keeps exactly the identifiers of the union of the two
key sets whose blended score `α·A.get(id,0) + (1-α)·B.get(id,0)` exceeds the
`0.05` cutoff, each mapped to that blended score; identifiers whose blended
score is at most `0.05` are absent.  (The α ∈ [0,1] bounds of the claim are
hypotheses, although the code never needs them.) -/
theorem combine_scores_spec (bge_scores pub_scores : StrMap ℚ) (alpha : ℚ)
    (h0 : 0 ≤ alpha) (h1 : alpha ≤ 1) (k : String) :
    ((dlookup (combine_scores bge_scores pub_scores alpha) k).isSome →
      (k ∈ bge_scores.map Prod.fst ∨ k ∈ pub_scores.map Prod.fst)) ∧
    ((k ∈ bge_scores.map Prod.fst ∨ k ∈ pub_scores.map Prod.fst) →
      blendedScore bge_scores pub_scores alpha k > 0.05 →
      dlookup (combine_scores bge_scores pub_scores alpha) k =
        some (blendedScore bge_scores pub_scores alpha k)) ∧
    (blendedScore bge_scores pub_scores alpha k ≤ 0.05 →
      dlookup (combine_scores bge_scores pub_scores alpha) k = none) := by
  refine ⟨?_, ?_, ?_⟩
  · intro h
    rw [combine_scores_lookup] at h
    by_cases hc : (k ∈ bge_scores.map Prod.fst ∨ k ∈ pub_scores.map Prod.fst) ∧
        blendedScore bge_scores pub_scores alpha k > 0.05
    · exact hc.1
    · rw [if_neg hc] at h
      cases h
  · intro hmem hgt
    rw [combine_scores_lookup, if_pos ⟨hmem, hgt⟩]
  · intro hle
    rw [combine_scores_lookup, if_neg (fun hc => absurd hc.2 (not_lt.mpr hle))]

/-- Witness for C3: a sole identifier with blended score `1/2` survives the
cutoff and receives the blended score. -/
theorem c3_witness :
    dlookup (combine_scores [("a", 1)] [] (1/2)) "a" =
      some (blendedScore [("a", 1)] [] (1/2) "a") :=
  (combine_scores_spec [("a", 1)] [] (1/2) (by norm_num) (by norm_num) "a").2.1
    (by norm_num [dlookup])
    (by norm_num [blendedScore, dlookup])

/-! ## Claim C4 -/

/-- Three matches with distinct dois whose raw scores `0`, `3`, `100`
normalize to `0`, `3/100` and `1`. -/
def exThree : List Match :=
  [⟨"a", 0, ⟨some "a", none⟩⟩, ⟨"b", 3, ⟨some "b", none⟩⟩, ⟨"c", 100, ⟨some "c", none⟩⟩]

/-- C4 counterexample: `A = normalize_scores exThree` contains `"b" ↦ 3/100`,
yet blending `A` with any second map at `α = 1.0` drops `"b"` (its blended
score `3/100` is below the `0.05` cutoff), so the blend does *not* equal the
first map for all sources present in it. -/
theorem c4_counterexample :
    normalize_scores exThree = [("a", 0), ("b", 3/100), ("c", 1)] ∧
    dlookup (normalize_scores exThree) "b" = some (3/100) ∧
    dlookup (combine_scores (normalize_scores exThree) [] 1) "b" = none := by
  have h : normalize_scores exThree = [("a", 0), ("b", 3/100), ("c", 1)] := by
    norm_num [exThree, normalize_scores, pyMax, pyMin, matchKey, dictOfList, dinsert]
    all_goals simp
  have hb : dlookup [("a", (0 : ℚ)), ("b", 3/100), ("c", 1)] "b" = some (3/100) := rfl
  refine ⟨h, ?_, ?_⟩
  · rw [h]
    exact hb
  · have hb0 : dlookup ([] : StrMap ℚ) "b" = none := rfl
    rw [h, combine_scores_lookup,
      if_neg (fun hc => absurd hc.2 (by norm_num [blendedScore, hb, hb0]))]

/-- C4 (amended): blending with `α = 1.0` reproduces the first map exactly on
the sources present there whose score exceeds the `0.05` cutoff, and drops
the rest (including everything only in the second map); symmetrically,
`α = 0.0` reproduces the second map on its sources above the cutoff. -/
theorem combine_scores_endpoint_weights (A B : StrMap ℚ) (k : String) :
    (∀ v, dlookup A k = some v → v > 0.05 →
      dlookup (combine_scores A B 1) k = some v) ∧
    (∀ v, dlookup A k = some v → v ≤ 0.05 →
      dlookup (combine_scores A B 1) k = none) ∧
    (dlookup A k = none → dlookup (combine_scores A B 1) k = none) ∧
    (∀ v, dlookup B k = some v → v > 0.05 →
      dlookup (combine_scores A B 0) k = some v) ∧
    (∀ v, dlookup B k = some v → v ≤ 0.05 →
      dlookup (combine_scores A B 0) k = none) ∧
    (dlookup B k = none → dlookup (combine_scores A B 0) k = none) := by
  have hA : ∀ v, dlookup A k = some v → blendedScore A B 1 k = v := by
    intro v hv
    rw [blendedScore, hv]
    ring_nf
    simp
  have hB : ∀ v, dlookup B k = some v → blendedScore A B 0 k = v := by
    intro v hv
    rw [blendedScore, hv]
    ring_nf
    simp
  have hAnone : dlookup A k = none → blendedScore A B 1 k = 0 := by
    intro hv
    rw [blendedScore, hv]
    ring_nf
    simp
  have hBnone : dlookup B k = none → blendedScore A B 0 k = 0 := by
    intro hv
    rw [blendedScore, hv]
    ring_nf
    simp
  refine ⟨?_, ?_, ?_, ?_, ?_, ?_⟩
  · intro v hv hgt
    rw [combine_scores_lookup,
      if_pos ⟨Or.inl ((mem_keys_iff_dlookup A k).mpr (by rw [hv]; rfl)),
        by rw [hA v hv]; exact hgt⟩, hA v hv]
  · intro v hv hle
    rw [combine_scores_lookup,
      if_neg (fun hc => absurd hc.2 (by rw [hA v hv]; exact not_lt.mpr hle))]
  · intro hv
    rw [combine_scores_lookup,
      if_neg (fun hc => absurd hc.2 (by rw [hAnone hv]; norm_num))]
  · intro v hv hgt
    rw [combine_scores_lookup,
      if_pos ⟨Or.inr ((mem_keys_iff_dlookup B k).mpr (by rw [hv]; rfl)),
        by rw [hB v hv]; exact hgt⟩, hB v hv]
  · intro v hv hle
    rw [combine_scores_lookup,
      if_neg (fun hc => absurd hc.2 (by rw [hB v hv]; exact not_lt.mpr hle))]
  · intro hv
    rw [combine_scores_lookup,
      if_neg (fun hc => absurd hc.2 (by rw [hBnone hv]; norm_num))]

/-- Witness for the amended C4: at `α = 1`, the `"c" ↦ 1` entry of the first
map survives unchanged and an absent key stays absent. -/
theorem c4_witness :
    dlookup (combine_scores [("c", (1 : ℚ))] [("z", 1)] 1) "c" = some 1 ∧
    dlookup (combine_scores [("c", (1 : ℚ))] [("z", 1)] 0) "z" = some 1 := by
  constructor
  · exact (combine_scores_endpoint_weights [("c", 1)] [("z", 1)] "c").1 1
      (by norm_num [dlookup]) (by norm_num)
  · exact (combine_scores_endpoint_weights [("c", 1)] [("z", 1)] "z").2.2.2.1 1
      (by norm_num [dlookup]) (by norm_num)

/-! ## Executable models of the Python string methods used by the pipeline

The Lean core versions of `trim`, `toLower` and `replace` recurse on byte
positions (well-founded recursion), which the kernel cannot evaluate on
concrete inputs, so structurally recursive equivalents over the character
list are used instead (ASCII-faithful, which covers every string the
pipeline compares). -/

/-- Python `s.strip()`: remove leading and trailing whitespace. -/
def pyStrip (s : String) : String :=
  ⟨((s.data.dropWhile Char.isWhitespace).reverse.dropWhile Char.isWhitespace).reverse⟩

/-- Python `s.lower()` (ASCII). -/
def pyLower (s : String) : String :=
  ⟨s.data.map Char.toLower⟩

/-- Non-overlapping left-to-right replacement with a fuel counter bounding the
number of consumed characters (the pattern is non-empty at every call site:
the two DOI URL prefixes). -/
def replaceFuel (pat repl : List Char) : ℕ → List Char → List Char
  | _, [] => []
  | 0, s => s
  | fuel + 1, c :: rest =>
    if pat.isPrefixOf (c :: rest) then
      repl ++ replaceFuel pat repl fuel (rest.drop (pat.length - 1))
    else
      c :: replaceFuel pat repl fuel rest

/-- Python `s.replace(pat, repl)` (all occurrences, non-overlapping). -/
def pyReplace (s pat repl : String) : String :=
  ⟨replaceFuel pat.data repl.data s.data.length s.data⟩

/-- Python `s.startswith(pre)`. -/
def pyStartsWith (s pre : String) : Bool :=
  pre.data.isPrefixOf s.data

/-- Helper for Python's `needle in hay` on strings. -/
def containsAux (needle : List Char) : List Char → Bool
  | [] => needle.isPrefixOf []
  | c :: rest => needle.isPrefixOf (c :: rest) || containsAux needle rest

/-- Python `needle in hay` on strings. -/
def strContains (hay needle : String) : Bool :=
  containsAux needle.data hay.data

/-! ## Context reconciler (`get_rag_context_from_pinecone_matches`) -/

/-- `doi.replace("https://doi.org/", "").replace("http://doi.org/", "")`. -/
def stripDoiUrl (s : String) : String :=
  pyReplace (pyReplace s "https://doi.org/" "") "http://doi.org/" ""

/-- The fallback comparison of the reconciler: case-insensitive equality, or
equality after stripping a DOI URL prefix from both sides. -/
def fuzzyMatch (target cand : String) : Bool :=
  pyLower target == pyLower cand || stripDoiUrl target == stripDoiUrl cand

/-- One iteration of the metadata-dictionary construction: skip matches
lacking a doi or a summary (Python truthiness: empty strings are falsy),
otherwise store the summary under the *stripped* doi, last write wins. -/
def matchStep (acc : StrMap String) (m : Match) : StrMap String :=
  let doi := m.metadata.doi.getD ""
  let summary := m.metadata.summary.getD ""
  if doi ≠ "" ∧ summary ≠ "" then dinsert acc (pyStrip doi) summary else acc

/-- The identifier→summary dictionary built from both match sets (BGE matches
first, then PubMedBERT matches). -/
def allMatchesDict (bge_matches pub_matches : QueryResult) : StrMap String :=
  pub_matches.«matches».foldl matchStep (bge_matches.«matches».foldl matchStep [])

/-- The reconciliation loop of `get_rag_context_from_pinecone_matches`: for
each ranked doi in order, emit a context block and confirm the identifier on
an exact (stripped) key hit, else on the first fuzzy dictionary hit (using
the *dictionary's* identifier form); the counter increments only on emission. -/
def reconcile (allMatches : StrMap String) : List String → ℕ → List String × List String
  | [], _ => ([], [])
  | doi :: rest, counter =>
    let clean := pyStrip doi
    match dlookup allMatches clean with
    | some summary =>
        let r := reconcile allMatches rest (counter + 1)
        (("[" ++ toString counter ++ "] Source: " ++ clean ++ "\n" ++ summary) :: r.1,
          clean :: r.2)
    | none =>
        match allMatches.find? (fun p => fuzzyMatch clean p.1) with
        | some p =>
            let r := reconcile allMatches rest (counter + 1)
            (("[" ++ toString counter ++ "] Source: " ++ p.1 ++ "\n" ++ p.2) :: r.1,
              p.1 :: r.2)
        | none => reconcile allMatches rest counter

/-- `pipeline.get_rag_context_from_pinecone_matches`: joined context string
and confirmed identifier list. -/
def get_rag_context_from_pinecone_matches (bge_matches pub_matches : QueryResult)
    (top_dois : List String) : String × List String :=
  let all := allMatchesDict bge_matches pub_matches
  let r := reconcile all top_dois 1
  (String.intercalate "\n\n" r.1, r.2)

/-- The dictionary key a ranked identifier resolves to: its stripped form on
an exact hit, else the key of the first fuzzy dictionary hit. -/
def resolveKey (allMatches : StrMap String) (doi : String) : Option String :=
  match dlookup allMatches (pyStrip doi) with
  | some _ => some (pyStrip doi)
  | none => (allMatches.find? (fun p => fuzzyMatch (pyStrip doi) p.1)).map Prod.fst

/-- The confirmed identifier list is exactly the ranked list filtered through
`resolveKey`. -/
lemma reconcile_confirmed (allMatches : StrMap String) (tops : List String) (c : ℕ) :
    (reconcile allMatches tops c).2 = tops.filterMap (resolveKey allMatches) := by
  induction tops generalizing c with
  | nil => rfl
  | cons d rest ih =>
      rcases hl : dlookup allMatches (pyStrip d) with _ | s
      · rcases hf : allMatches.find? (fun p => fuzzyMatch (pyStrip d) p.1) with _ | p
        · simp [reconcile, resolveKey, hl, hf, ih]
        · simp [reconcile, resolveKey, hl, hf, ih]
      · simp [reconcile, resolveKey, hl, ih]

/-! ## Claim C6 -/

/-- A BGE match carrying doi `"X"` with a summary. -/
def bgeC6 : QueryResult := ⟨[⟨"1", 0, ⟨some "X", some "s"⟩⟩]⟩

/-- A PubMedBERT match carrying doi `"Y"` with an *empty* summary. -/
def pubC6 : QueryResult := ⟨[⟨"2", 0, ⟨some "Y", some ""⟩⟩]⟩

/-- C6 counterexample: `"Y"` is present verbatim among the metadata dois yet
is never confirmed (its summary is empty, so the dictionary skips it), and
`"X"` — also present verbatim — is confirmed *twice* because the ranked list
also contains its case variant `"x"`, which fuzzy-matches the same
dictionary entry. -/
theorem c6_counterexample :
    some "Y" ∈ pubC6.«matches».map (fun m => m.metadata.doi) ∧
    some "X" ∈ bgeC6.«matches».map (fun m => m.metadata.doi) ∧
    (get_rag_context_from_pinecone_matches bgeC6 pubC6 ["Y", "X", "x"]).2 = ["X", "X"] ∧
    "Y" ∉ (get_rag_context_from_pinecone_matches bgeC6 pubC6 ["Y", "X", "x"]).2 ∧
    (get_rag_context_from_pinecone_matches bgeC6 pubC6 ["Y", "X", "x"]).2.count "X" = 2 := by
  decide

/-- C6 (amended): a ranked identifier whose trimmed form is a key of the
metadata dictionary (built from matches with non-empty doi *and* non-empty
summary, keyed by trimmed doi) is always confirmed; and it appears exactly
once in the confirmed citation list provided it occurs only once in the
ranked list and no other ranked entry resolves — exactly, case-insensitively,
or after stripping DOI URL prefixes — to the same dictionary key. -/
theorem reconciler_verbatim_confirmation (bge_matches pub_matches : QueryResult)
    (tops : List String) (d : String) (s : String)
    (hkey : dlookup (allMatchesDict bge_matches pub_matches) (pyStrip d) = some s)
    (hmem : d ∈ tops) :
    pyStrip d ∈ (get_rag_context_from_pinecone_matches bge_matches pub_matches tops).2 ∧
    (tops.count d = 1 →
      (∀ d' ∈ tops, d' ≠ d →
        resolveKey (allMatchesDict bge_matches pub_matches) d' ≠ some (pyStrip d)) →
      (get_rag_context_from_pinecone_matches bge_matches pub_matches tops).2.count
        (pyStrip d) = 1) := by
  have hres : resolveKey (allMatchesDict bge_matches pub_matches) d = some (pyStrip d) := by
    rw [resolveKey, hkey]
  have hconf : (get_rag_context_from_pinecone_matches bge_matches pub_matches tops).2 =
      tops.filterMap (resolveKey (allMatchesDict bge_matches pub_matches)) := by
    rw [get_rag_context_from_pinecone_matches]
    exact reconcile_confirmed _ tops 1
  constructor
  · rw [hconf]
    exact List.mem_filterMap.mpr ⟨d, hmem, hres⟩
  · intro hcount hother
    rw [hconf, List.count_filterMap]
    have hcongr : ∀ t ∈ tops,
        ((resolveKey (allMatchesDict bge_matches pub_matches) t == some (pyStrip d)) = true)
          ↔ ((t == d) = true) := by
      intro t ht
      simp only [beq_iff_eq]
      constructor
      · intro hr
        by_contra hne
        exact hother t ht hne hr
      · intro ht'
        rw [ht']
        exact hres
    rw [List.countP_congr hcongr, ← List.count_eq_countP]
    exact hcount

/-- Witness for the amended C6 at a concrete input: the sole ranked doi
`"W"` is present verbatim with a summary and is confirmed exactly once. -/
theorem c6_witness :
    pyStrip "W" ∈
      (get_rag_context_from_pinecone_matches ⟨[⟨"1", 0, ⟨some "W", some "s"⟩⟩]⟩ ⟨[]⟩ ["W"]).2 ∧
    (get_rag_context_from_pinecone_matches ⟨[⟨"1", 0, ⟨some "W", some "s"⟩⟩]⟩ ⟨[]⟩ ["W"]).2.count
      (pyStrip "W") = 1 := by
  have h := reconciler_verbatim_confirmation ⟨[⟨"1", 0, ⟨some "W", some "s"⟩⟩]⟩ ⟨[]⟩
    ["W"] "W" "s" (by decide) (by decide)
  exact ⟨h.1, h.2 (by decide) (by decide)⟩

/-! ## Gene batch resolution (`process_genes_batch`) -/

/-- A UniProt lookup result (`{entry, protein_names}`); `protein_names = ""`
models a falsy value. -/
structure UniprotInfo where
  entry : String
  protein_names : String
  deriving DecidableEq, Repr

/-- The external lookup capabilities used by `process_genes_batch`
(`map_to_gene_id`, `get_gene_summary`, `get_uniprot_info`), passed as
oracles.  `none` models a Python `None` result. -/
structure GeneLookups where
  map_to_gene_id : String → Option String
  get_gene_summary : String → Option String
  get_uniprot_info : String → Option UniprotInfo

/-- One resolved gene record.  A missing `"link"` key is `none`; a missing
`"not_found"` key is `false`. -/
structure GeneRecord where
  name : String
  summary : String
  link : Option String
  source : String
  description : String
  not_found : Bool
  deriving DecidableEq, Repr

/-- Python `x or default` for `x : Optional[str]` (both `None` and `""` are
falsy). -/
def pyOrOpt (o : Option String) (dflt : String) : String :=
  match o with
  | some s => if s = "" then dflt else s
  | none => dflt

/-- Python `x or default` for a string `x`. -/
def pyOrStr (s dflt : String) : String :=
  if s = "" then dflt else s

/-- The per-symbol body of the `process_genes_batch` loop: three-tier
fallback, first match wins (NCBI gene id → UniProt → literature-mention
stub with `not_found = True`). -/
def processGene (lk : GeneLookups) (gene : String) : GeneRecord :=
  let gene_id := lk.map_to_gene_id gene
  if gene_id.getD "" ≠ "" then
    let gid := gene_id.getD ""
    let gene_summary := lk.get_gene_summary gid
    { name := gene,
      summary := "**NCBI Gene Database**\n\n" ++ pyOrOpt gene_summary ("Gene ID: " ++ gid),
      link := some ("https://www.ncbi.nlm.nih.gov/gene/" ++ gid),
      source := "NCBI Gene Database",
      description := pyOrOpt gene_summary ("Gene ID: " ++ gid),
      not_found := false }
  else
    match lk.get_uniprot_info gene with
    | some info =>
        { name := gene,
          summary := "![UniProt Logo](/images/UniProtLogo.png)\n\n**UniProt Protein Database**\n\n"
            ++ pyOrStr info.protein_names ("UniProt Entry: " ++ info.entry),
          link := some ("https://www.uniprot.org/uniprotkb/" ++ info.entry),
          source := "UniProt Protein Database",
          description := pyOrStr info.protein_names ("UniProt Entry: " ++ info.entry),
          not_found := false }
    | none =>
        { name := gene,
          summary := "**Literature Mention**\n\nGene identifier: " ++ gene
            ++ "\nSource: Literature mention",
          link := none,
          source := "Literature Mention",
          description := "Gene mentioned in research literature: " ++ gene,
          not_found := true }

/-- `pipeline.process_genes_batch`: the loop appends exactly one record per
input symbol, in input order. -/
def process_genes_batch (lk : GeneLookups) (gene_mentions : List String) : List GeneRecord :=
  gene_mentions.map (processGene lk)

lemma processGene_name (lk : GeneLookups) (g : String) : (processGene lk g).name = g := by
  rw [processGene]
  split
  · rfl
  · rcases h : lk.get_uniprot_info g with _ | info <;> rfl

lemma processGene_source (lk : GeneLookups) (g : String) :
    (processGene lk g).source = "NCBI Gene Database" ∨
    (processGene lk g).source = "UniProt Protein Database" ∨
    (processGene lk g).source = "Literature Mention" := by
  rw [processGene]
  split
  · exact Or.inl rfl
  · rcases h : lk.get_uniprot_info g with _ | info
    · exact Or.inr (Or.inr rfl)
    · exact Or.inr (Or.inl rfl)

lemma processGene_unresolved (lk : GeneLookups) (g : String)
    (h1 : (lk.map_to_gene_id g).getD "" = "") (h2 : lk.get_uniprot_info g = none) :
    (processGene lk g).source = "Literature Mention" ∧
    (processGene lk g).not_found = true := by
  rw [processGene, if_neg (fun hc => hc h1), h2]
  exact ⟨rfl, rfl⟩

/-! ## Claim C7 -/

/-- C7: for every lookup oracle and every input symbol list, the batch
resolver returns exactly one record per input symbol in input order
(duplicates included, nothing dropped); every record carries one of the
three source tags; and a symbol unresolved in both databases yields a
literature-mention record with `not_found = true`. -/
theorem process_genes_batch_spec (lk : GeneLookups) (gene_mentions : List String) :
    (process_genes_batch lk gene_mentions).length = gene_mentions.length ∧
    (∀ (i : ℕ) (g : String), gene_mentions[i]? = some g →
      ∃ r : GeneRecord, (process_genes_batch lk gene_mentions)[i]? = some r ∧
        r.name = g ∧
        (r.source = "NCBI Gene Database" ∨ r.source = "UniProt Protein Database" ∨
          r.source = "Literature Mention") ∧
        ((lk.map_to_gene_id g).getD "" = "" → lk.get_uniprot_info g = none →
          r.source = "Literature Mention" ∧ r.not_found = true)) := by
  refine ⟨by simp [process_genes_batch], ?_⟩
  intro i g hg
  refine ⟨processGene lk g, ?_, processGene_name lk g, processGene_source lk g,
    processGene_unresolved lk g⟩
  rw [process_genes_batch, List.getElem?_map, hg]
  rfl

/-- A lookup oracle with empty databases. -/
def lkNone : GeneLookups := ⟨fun _ => none, fun _ => none, fun _ => none⟩

/-- Witness for C7 at a concrete input: one symbol, both lookups empty,
yields one literature-mention record with `not_found = true`. -/
theorem c7_witness :
    (process_genes_batch lkNone ["abc"]).length = (["abc"] : List String).length ∧
    ∃ r : GeneRecord, (process_genes_batch lkNone ["abc"])[0]? = some r ∧
      r.source = "Literature Mention" ∧ r.not_found = true := by
  have h := process_genes_batch_spec lkNone ["abc"]
  obtain ⟨r, hr, _, _, hlit⟩ := h.2 0 "abc" rfl
  exact ⟨h.1, r, hr, (hlit rfl rfl).1, (hlit rfl rfl).2⟩

/-! ## Streaming synthesizer (`query_openai_stream`) -/

/-- The observable behaviour of one upstream streaming completion call:
`deltas` are the chunk contents the iteration yields before it either ends
normally (`failure = none`) or raises (`failure = some message`); a `none`
delta models a chunk whose `delta.content` is `None` (skipped by the loop).
A failure at creation time is `deltas = []` with `failure = some _`. -/
structure Upstream where
  deltas : List (Option String)
  failure : Option String
  deriving DecidableEq, Repr

/-- The inline error fragment the `except` handler yields:
`f"\n\n*Error generating response: {str(e)}*\n\n"`. -/
def errorFragment (e : String) : String :=
  "\n\n*Error generating response: " ++ e ++ "*\n\n"

/-- `pipeline.query_openai_stream`: forward every non-`None` chunk delta; if
the upstream call raises (at creation or mid-stream), the `except Exception`
handler catches it and yields one inline error fragment, after which the
generator ends.  The function is total — no exception escapes to the
consumer. -/
def query_openai_stream (up : Upstream) : List String :=
  up.deltas.filterMap id ++
    match up.failure with
    | some e => [errorFragment e]
    | none => []

/-! ## Claim C8 -/

/-- C8: when the upstream completion call fails (at creation or after any
prefix of chunks), the streamed fragment sequence is exactly the normal
fragments followed by one inline error fragment describing the failure, which
is the final fragment — the exception is never propagated (the embedding is a
total function into a fragment list). -/
theorem query_openai_stream_error_recovery (up : Upstream) (e : String)
    (hf : up.failure = some e) :
    query_openai_stream up = up.deltas.filterMap id ++ [errorFragment e] ∧
    (query_openai_stream up).getLast? = some (errorFragment e) := by
  have h1 : query_openai_stream up = up.deltas.filterMap id ++ [errorFragment e] := by
    rw [query_openai_stream, hf]
  refine ⟨h1, ?_⟩
  rw [h1]
  simp

/-- Witness for C8: a stream that yields one chunk and then fails ends with
exactly one error fragment. -/
theorem c8_witness :
    query_openai_stream ⟨[some "hi", none], some "boom"⟩ = ["hi", errorFragment "boom"] ∧
    (query_openai_stream ⟨[some "hi", none], some "boom"⟩).getLast? =
      some (errorFragment "boom") := by
  have h := query_openai_stream_error_recovery ⟨[some "hi", none], some "boom"⟩ "boom" rfl
  exact ⟨by rw [h.1]; rfl, h.2⟩

/-! ## Ranking and reference glue shared by the orchestrators -/

/-- Stable insertion of an entry into a list sorted by score descending
(an entry moves ahead only of strictly smaller scores, so equal scores keep
their original order — the stability guarantee of Python's `sorted`). -/
def insertDesc (p : String × ℚ) : StrMap ℚ → StrMap ℚ
  | [] => [p]
  | q :: rest => if q.2 < p.2 then p :: q :: rest else q :: insertDesc p rest

/-- `sorted(combined_scores.items(), key=lambda x: x[1], reverse=True)`:
stable sort by score descending. -/
def sortDesc (d : StrMap ℚ) : StrMap ℚ :=
  d.foldr insertDesc []

/-- The ranked top-K doi list computed by both orchestrators:
normalize each match set, blend, sort by blended score descending, truncate
to `top_k`, and keep the identifiers. -/
def rankedTopDois (bge_res pub_res : QueryResult) (alpha : ℚ) (top_k : ℕ) : List String :=
  let bge_scores := normalize_scores bge_res.«matches»
  let pub_scores := normalize_scores pub_res.«matches»
  let combined_scores := combine_scores bge_scores pub_scores alpha
  ((sortDesc combined_scores).take top_k).map Prod.fst

/-- `f"https://doi.org/{doi}" if not doi.startswith('http') else doi`. -/
def doiUrl (doi : String) : String :=
  if pyStartsWith doi "http" then doi else "https://doi.org/" ++ doi

/-- The references section appended for the confirmed sources. -/
def referencesText (dois : List String) : String :=
  "\n\n---\n\n## 📚 **References**\n\n" ++
    String.join ((List.enumFrom 1 dois).map
      (fun p => "[" ++ toString p.1 ++ "] " ++ p.2 ++ " - " ++ doiUrl p.2 ++ "\n\n"))

/-- `bean_keywords` of the orchestrators. -/
def beanKeywords : List String :=
  ["yield", "maturity", "cultivar", "variety", "performance", "bean", "production",
    "steam", "lighthouse", "seal"]

/-- `any(keyword in question.lower() for keyword in bean_keywords)`. -/
def hasBeanKeywords (question : String) : Bool :=
  beanKeywords.any (fun k => strContains (pyLower question) k)

/-! ## Batch orchestrator (`answer_question`) -/

/-- Outcome of the bean-data `try` block of the batch orchestrator:
the function-call request raised, or the model declined the function call, or
it called a function of the given name whose `answer_bean_query` result is
`(preview, full_md, chart_data)`. -/
inductive BeanTry where
  | raises (e : String)
  | noCall
  | call (name : String) (preview full_md : String) (chart : StrMap String)
  deriving DecidableEq, Repr

/-- The `transition_message` computed by the batch orchestrator before the
RAG pipeline runs (lines 884–948 of `pipeline.py`). -/
def transitionMessage (question : String) (is_genetic : Bool) (bt : BeanTry) : String :=
  if is_genetic then ""
  else if hasBeanKeywords question then
    match bt with
    | .raises _ =>
        "## 🔍 **Dataset Search**\n\nEncountered an issue accessing the cultivar dataset.\n\n---\n\n## 📚 **Research Literature Search**\n\nSearching scientific publications for relevant information...\n\n"
    | .noCall =>
        "## 📚 **Research Literature Search**\n\nSearching scientific publications for relevant information...\n\n"
    | .call nm preview _ _ =>
        if nm = "query_bean_data" then
          if preview ≠ "" ∧ preview.length > 20 then
            "## 🔍 **Dataset Analysis Results**\n\n" ++ preview ++
              "\n\n---\n\n## 📚 **Related Research Literature**\n\nSearching scientific publications for additional context and insights...\n\n"
          else
            "## 🔍 **Dataset Search Results**\n\nNo specific data found in our cultivar performance dataset for this query.\n\n---\n\n## 📚 **Research Literature Search**\n\nSearching scientific publications for relevant information...\n\n"
        else ""
  else ""

/-- The external collaborators of the batch orchestrator, as oracles:
classifier verdict, bean-data attempt, the two Pinecone results, the
configured blend weight and top-K, the completion service (given the context
and the question), and the gene extractor (given the final answer; `Except`
models the `try`/`except` around extraction). -/
structure BatchOracle where
  is_genetic : Bool
  beanTry : BeanTry
  bge_matches : QueryResult
  pub_matches : QueryResult
  alpha : ℚ
  top_k : ℕ
  synth : String → String → String
  extract : String → Except String (List String × List String × List String)
  lookups : GeneLookups

/-- `pipeline.answer_question`: classification / bean branch (absorbed into
`transitionMessage`), then the RAG pipeline; on empty reconciled context the
canned "no matching papers" tuple is returned with the ranked doi list;
otherwise the synthesized answer gets the transition message prepended and a
references section appended, and gene extraction fills the record list
(empty on extraction failure). -/
def answer_question (o : BatchOracle) (question : String) :
    String × List String × List GeneRecord × String :=
  let transition_message := transitionMessage question o.is_genetic o.beanTry
  let top_dois := rankedTopDois o.bge_matches o.pub_matches o.alpha o.top_k
  let r := get_rag_context_from_pinecone_matches o.bge_matches o.pub_matches top_dois
  let combined_context := r.1
  let confirmed_dois := r.2
  if pyStrip combined_context = "" then
    ("No matching papers found in RAG corpus.", top_dois, [], "")
  else
    let final_answer0 := o.synth combined_context question
    let final_answer1 :=
      if transition_message ≠ "" then transition_message ++ final_answer0 else final_answer0
    let final_answer2 :=
      if confirmed_dois ≠ [] then final_answer1 ++ referencesText confirmed_dois
      else final_answer1
    match o.extract final_answer2 with
    | .ok (mentions, _, _) =>
        (final_answer2, confirmed_dois, process_genes_batch o.lookups mentions, "")
    | .error _ => (final_answer2, confirmed_dois, [], "")

/-! ## Claim C5 -/

/-- A BGE result whose two matches have dois but no summaries, so the
reconciler confirms nothing although the blend ranks `"B"`. -/
def bgeC5 : QueryResult :=
  ⟨[⟨"A", 0, ⟨some "A", none⟩⟩, ⟨"B", 1, ⟨some "B", none⟩⟩]⟩

/-- A concrete oracle under which the reconciled context is empty while the
ranked doi list is `["B"]`. -/
def oC5 : BatchOracle :=
  { is_genetic := true, beanTry := .noCall, bge_matches := bgeC5, pub_matches := ⟨[]⟩,
    alpha := 1/2, top_k := 10, synth := fun _ _ => "",
    extract := fun _ => .ok ([], [], []), lookups := lkNone }

/-- C5 counterexample: with an empty reconciled context the orchestrator
returns the canned answer and empty gene list, but the citation/source
identifier slot is the *ranked* doi list `["B"]`, not the empty list the
claim demands. -/
lemma rankedC5 : rankedTopDois oC5.bge_matches oC5.pub_matches oC5.alpha oC5.top_k = ["B"] := by
  have h0 : normalize_scores (oC5.pub_matches).«matches» = [] := rfl
  have h1 : normalize_scores (oC5.bge_matches).«matches» = [("A", 0), ("B", 1)] := by
    norm_num [oC5, bgeC5, normalize_scores, pyMax, pyMin, matchKey, dictOfList, dinsert]
    all_goals simp
  have h2 : combine_scores [("A", (0 : ℚ)), ("B", 1)] [] (1/2) = [("B", 1/2)] := by
    have hrw : combine_scores [("A", (0 : ℚ)), ("B", 1)] [] (1/2) =
        List.foldl
          (fun combined src =>
            if blendedScore [("A", (0 : ℚ)), ("B", 1)] [] (1/2) src > 0.05 then
              dinsert combined src (blendedScore [("A", (0 : ℚ)), ("B", 1)] [] (1/2) src)
            else combined)
          [] ["A", "B"] := rfl
    have hA : blendedScore [("A", (0 : ℚ)), ("B", 1)] [] (1/2) "A" = 0 := by
      rw [blendedScore, show dlookup [("A", (0 : ℚ)), ("B", 1)] "A" = some 0 from rfl,
        show dlookup ([] : StrMap ℚ) "A" = none from rfl]
      norm_num
    have hB : blendedScore [("A", (0 : ℚ)), ("B", 1)] [] (1/2) "B" = 1/2 := by
      rw [blendedScore, show dlookup [("A", (0 : ℚ)), ("B", 1)] "B" = some 1 from rfl,
        show dlookup ([] : StrMap ℚ) "B" = none from rfl]
      norm_num
    rw [hrw, List.foldl_cons, if_neg (by rw [hA]; norm_num), List.foldl_cons,
      if_pos (by rw [hB]; norm_num), List.foldl_nil, hB]
    rfl
  show rankedTopDois oC5.bge_matches oC5.pub_matches (1/2) 10 = ["B"]
  simp only [rankedTopDois, h0, h1, h2]
  rfl

theorem c5_counterexample :
    pyStrip (get_rag_context_from_pinecone_matches oC5.bge_matches oC5.pub_matches
      (rankedTopDois oC5.bge_matches oC5.pub_matches oC5.alpha oC5.top_k)).1 = "" ∧
    answer_question oC5 "q" = ("No matching papers found in RAG corpus.", ["B"], [], "") ∧
    (answer_question oC5 "q").2.1 ≠ [] := by
  have hctx : get_rag_context_from_pinecone_matches oC5.bge_matches oC5.pub_matches ["B"] =
      ("", []) := by decide
  refine ⟨?_, ?_, ?_⟩
  · rw [rankedC5, hctx]
    decide
  · simp only [answer_question, rankedC5, hctx]
    decide
  · simp only [answer_question, rankedC5, hctx]
    decide

/-- C5 (amended): whenever reconciliation yields an empty joined context, the
batch orchestrator does not raise (it is total in this embedding) and returns
the canned "no matching papers" answer text, the *ranked* top-doi list
(possibly non-empty), an empty gene record list, and the empty placeholder
string. -/
theorem answer_question_empty_context (o : BatchOracle) (question : String)
    (h : pyStrip (get_rag_context_from_pinecone_matches o.bge_matches o.pub_matches
      (rankedTopDois o.bge_matches o.pub_matches o.alpha o.top_k)).1 = "") :
    answer_question o question =
      ("No matching papers found in RAG corpus.",
        rankedTopDois o.bge_matches o.pub_matches o.alpha o.top_k, [], "") := by
  simp only [answer_question]
  rw [if_pos h]

/-- Witness for the amended C5 at the concrete oracle. -/
theorem c5_witness :
    answer_question oC5 "w" =
      ("No matching papers found in RAG corpus.",
        rankedTopDois oC5.bge_matches oC5.pub_matches oC5.alpha oC5.top_k, [], "") := by
  apply answer_question_empty_context
  rw [rankedC5]
  decide

/-! ## Streaming orchestrators (`answer_question_stream`,
`continue_with_research_stream`) -/

/-- The payload of a terminal `bean_complete` / `metadata` event. -/
structure MetaPayload where
  sources : List String
  genes : List GeneRecord
  full_markdown_table : String
  chart_data : StrMap String
  suggested_questions : List String
  deriving DecidableEq, Repr

/-- One event of the streaming conventions. -/
inductive Event where
  | progress (step detail : String)
  | content (data : String)
  | beanComplete (payload : MetaPayload)
  | metadata (payload : MetaPayload)
  deriving DecidableEq, Repr

/-- `for char in text: yield {"type": "content", "data": char}`. -/
def contentChars (s : String) : List Event :=
  s.data.map (fun c => Event.content c.toString)

/-- The external collaborators of the streaming orchestrators, as oracles.
`fnCall = some (name, arguments)` models `finish_reason == "function_call"`;
`upstream` is the streaming completion behaviour; `extract` models the
gene-extraction `try` block. -/
structure StreamOracle where
  is_genetic : Bool
  fnCall : Option (String × String)
  answer_bean_query : String → String × String × StrMap String
  summary_answer : String
  bge_res : QueryResult
  pub_res : QueryResult
  alpha : ℚ
  top_k : ℕ
  upstream : Upstream
  extract : String → Except String (List String × List String × List String)
  lookups : GeneLookups

/-- The gene-extraction progress event, emitted only when the streamed answer
is non-blank. -/
def geneExtractionEvents (full_response : String) : List Event :=
  if pyStrip full_response ≠ "" then
    [Event.progress "gene_extraction" "Extracting gene mentions from research text"]
  else []

/-- The gene-processing progress event, emitted only when extraction succeeds
with a non-empty mention list. -/
def geneProcessingEvents (o : StreamOracle) (full_response : String) : List Event :=
  match o.extract full_response with
  | .ok (mentions, _, _) =>
      if mentions ≠ [] then
        [Event.progress "gene_processing"
          ("Processing " ++ toString mentions.length ++ " genetic elements")]
      else []
  | .error _ => []

/-- The gene records carried by the final metadata event of
`answer_question_stream` (only computed when extraction succeeded *and*
found mentions; otherwise the initial `[]`). -/
def researchGenes (o : StreamOracle) (full_response : String) : List GeneRecord :=
  match o.extract full_response with
  | .ok (mentions, _, _) =>
      if mentions ≠ [] then process_genes_batch o.lookups mentions else []
  | .error _ => []

/-- The research tail shared by every non-short-circuited branch of
`answer_question_stream` (lines 809–873): progress events, streamed content
chunks, gene extraction, and the final metadata event. -/
def researchEvents (o : StreamOracle) : List Event :=
  let top_dois := rankedTopDois o.bge_res o.pub_res o.alpha o.top_k
  let r := get_rag_context_from_pinecone_matches o.bge_res o.pub_res top_dois
  let source_list := r.2
  let chunks := query_openai_stream o.upstream
  let full_response := String.join chunks
  ([Event.progress "embeddings" "Processing semantic embeddings"] ++
   [Event.progress "search" "Searching literature database"] ++
   [Event.progress "papers" ("Found " ++ toString top_dois.length ++ " relevant papers")] ++
   [Event.progress "generation" "Synthesizing findings with AI"] ++
   chunks.map Event.content ++
   geneExtractionEvents full_response ++
   geneProcessingEvents o full_response ++
   [Event.progress "sources" "Generating research references and citations"] ++
   [Event.progress "finalizing" "Completing analysis"]) ++
  [Event.metadata ⟨source_list, researchGenes o full_response, "", [], []⟩]

/-- The transition text streamed before a literature search in
`answer_question_stream`. -/
def transitionSearchText : String :=
  "\n\n## 📚 **Research Literature Search**\n\nSearching scientific publications for relevant information...\n\n"

/-- `pipeline.answer_question_stream` as the event sequence it yields,
deterministic given the oracles.  The bean-data short-circuit ends with a
`bean_complete` event and returns; every other branch falls through to the
research tail. -/
def answer_question_stream (o : StreamOracle) (question : String) : List Event :=
  [Event.progress "thinking" "Thinking..."] ++
  [Event.progress "analysis" "Analyzing question type"] ++
  (if o.is_genetic then researchEvents o
   else
    [Event.progress "dataset" "Checking cultivar database"] ++
    (if hasBeanKeywords question then
      match o.fnCall with
      | some (nm, args) =>
        [Event.progress "processing" "Processing cultivar data"] ++
        (if nm = "query_bean_data" then
          if (o.answer_bean_query args).1 ≠ "" ∧
              ¬ pyStartsWith (pyStrip (o.answer_bean_query args).1)
                "## 🔍 **Dataset Query Results**\n\nNo matching" then
            [Event.progress "dataset_success" "Found matching data"] ++
            [Event.progress "generation" "Creating analysis summary"] ++
            contentChars o.summary_answer ++
            [Event.beanComplete ⟨[], [], (o.answer_bean_query args).2.1,
              (o.answer_bean_query args).2.2, []⟩]
          else
            [Event.progress "fallback" "No data found, searching literature"] ++
            researchEvents o
         else researchEvents o)
      | none =>
        [Event.progress "generation" "Proceeding to literature search"] ++
        contentChars transitionSearchText ++
        researchEvents o
     else
      [Event.progress "generation" "Proceeding to literature search"] ++
      contentChars transitionSearchText ++
      researchEvents o))

/-- The transition text streamed at the start of
`continue_with_research_stream`. -/
def transitionResearchText : String :=
  "\n\n---\n\n## 📚 **Related Research Literature**\n\nSearching scientific publications for additional context and insights...\n\n"

/-- `pipeline.continue_with_research_stream` as the event sequence it yields:
transition text, progress events, streamed content chunks, gene extraction
(here `process_genes_batch` runs even for an empty mention list), a streamed
references section when sources were confirmed, and the final metadata
event. -/
def continue_with_research_stream (o : StreamOracle) : List Event :=
  let top_dois := rankedTopDois o.bge_res o.pub_res o.alpha o.top_k
  let r := get_rag_context_from_pinecone_matches o.bge_res o.pub_res top_dois
  let source_list := r.2
  let chunks := query_openai_stream o.upstream
  let full_response := String.join chunks
  let genes :=
    match o.extract full_response with
    | .ok (mentions, _, _) => process_genes_batch o.lookups mentions
    | .error _ => []
  (contentChars transitionResearchText ++
   [Event.progress "embeddings" "Processing semantic embeddings"] ++
   [Event.progress "search" "Searching literature database"] ++
   [Event.progress "papers" ("Found " ++ toString top_dois.length ++ " relevant papers")] ++
   [Event.progress "generation" "Synthesizing findings with AI"] ++
   chunks.map Event.content ++
   geneExtractionEvents full_response ++
   geneProcessingEvents o full_response ++
   [Event.progress "sources" "Generating research references and citations"] ++
   (if source_list ≠ [] then contentChars (referencesText source_list) else []) ++
   [Event.progress "finalizing" "Completing analysis"]) ++
  [Event.metadata ⟨source_list, genes, "", [], []⟩]

/-! ## Event-ordering machinery for claim C9 -/

/-- Whether an event is of type `"metadata"`. -/
def isMetadataEvent : Event → Bool
  | .metadata _ => true
  | _ => false

/-- A list of events without any metadata event. -/
def NoMeta (l : List Event) : Prop :=
  ∀ e ∈ l, isMetadataEvent e = false

lemma noMeta_append {l₁ l₂ : List Event} (h₁ : NoMeta l₁) (h₂ : NoMeta l₂) :
    NoMeta (l₁ ++ l₂) := by
  intro e he
  rcases List.mem_append.mp he with h | h
  · exact h₁ e h
  · exact h₂ e h

lemma noMeta_nil : NoMeta [] := by
  intro e he
  cases he

lemma noMeta_singleton_progress (a b : String) : NoMeta [Event.progress a b] := by
  intro e he
  rcases List.mem_singleton.mp he with rfl
  rfl

lemma noMeta_singleton_beanComplete (p : MetaPayload) : NoMeta [Event.beanComplete p] := by
  intro e he
  rcases List.mem_singleton.mp he with rfl
  rfl

lemma noMeta_contentChars (s : String) : NoMeta (contentChars s) := by
  intro e he
  rcases List.mem_map.mp he with ⟨c, _, rfl⟩
  rfl

lemma noMeta_map_content (l : List String) : NoMeta (l.map Event.content) := by
  intro e he
  rcases List.mem_map.mp he with ⟨c, _, rfl⟩
  rfl

lemma noMeta_ite (c : Prop) [Decidable c] {l₁ l₂ : List Event}
    (h₁ : NoMeta l₁) (h₂ : NoMeta l₂) : NoMeta (if c then l₁ else l₂) := by
  split
  · exact h₁
  · exact h₂

lemma noMeta_geneExtractionEvents (s : String) : NoMeta (geneExtractionEvents s) := by
  rw [geneExtractionEvents]
  exact noMeta_ite _ (noMeta_singleton_progress _ _) noMeta_nil

lemma noMeta_geneProcessingEvents (o : StreamOracle) (s : String) :
    NoMeta (geneProcessingEvents o s) := by
  rw [geneProcessingEvents]
  rcases o.extract s with e | ⟨m, r⟩
  · exact noMeta_nil
  · exact noMeta_ite _ (noMeta_singleton_progress _ _) noMeta_nil

/-- In a list of the form `l ++ [metadata p]` with `l` metadata-free, every
content event strictly precedes every metadata event. -/
lemma content_before_metadata_shape {l : List Event} {p : MetaPayload}
    (h : NoMeta l) :
    ∀ (i j : ℕ) (m : MetaPayload) (c : String),
      (l ++ [Event.metadata p])[i]? = some (Event.metadata m) →
      (l ++ [Event.metadata p])[j]? = some (Event.content c) → j < i := by
  intro i j m c hi hj
  have hi_lt : i < l.length + 1 := by
    rcases List.getElem?_eq_some.mp hi with ⟨hlt, _⟩
    simpa using hlt
  have hj_lt : j < l.length + 1 := by
    rcases List.getElem?_eq_some.mp hj with ⟨hlt, _⟩
    simpa using hlt
  have hi_eq : i = l.length := by
    by_contra hne
    have hilt : i < l.length := by omega
    rw [List.getElem?_append, if_pos hilt] at hi
    rcases List.getElem?_eq_some.mp hi with ⟨hlt2, heq⟩
    have hmem : Event.metadata m ∈ l := heq ▸ List.getElem_mem hlt2
    have hfalse := h _ hmem
    simp [isMetadataEvent] at hfalse
  have hj_ne : j ≠ l.length := by
    intro hje
    subst hje
    rw [List.getElem?_append, if_neg (lt_irrefl _), Nat.sub_self] at hj
    simp at hj
  omega

/-- In a metadata-free event list the ordering property holds vacuously. -/
lemma no_metadata_vacuous {l : List Event} (h : NoMeta l) :
    ∀ (i j : ℕ) (m : MetaPayload) (c : String),
      l[i]? = some (Event.metadata m) → l[j]? = some (Event.content c) → j < i := by
  intro i j m c hi _
  rcases List.getElem?_eq_some.mp hi with ⟨hlt, heq⟩
  have hmem : Event.metadata m ∈ l := heq ▸ List.getElem_mem hlt
  have hfalse := h _ hmem
  simp [isMetadataEvent] at hfalse

/-- `researchEvents` is a metadata-free prefix followed by one final metadata
event. -/
lemma researchEvents_shape (o : StreamOracle) :
    ∃ l p, researchEvents o = l ++ [Event.metadata p] ∧ NoMeta l := by
  simp only [researchEvents]
  refine ⟨_, _, rfl, ?_⟩
  repeat' apply noMeta_append
  all_goals first
    | exact noMeta_singleton_progress _ _
    | exact noMeta_map_content _
    | exact noMeta_geneExtractionEvents _
    | exact noMeta_geneProcessingEvents _ _

/-- `continue_with_research_stream` is a metadata-free prefix followed by one
final metadata event. -/
lemma continueStream_shape (o : StreamOracle) :
    ∃ l p, continue_with_research_stream o = l ++ [Event.metadata p] ∧ NoMeta l := by
  simp only [continue_with_research_stream]
  refine ⟨_, _, rfl, ?_⟩
  repeat' apply noMeta_append
  all_goals first
    | exact noMeta_singleton_progress _ _
    | exact noMeta_map_content _
    | exact noMeta_contentChars _
    | exact noMeta_geneExtractionEvents _
    | exact noMeta_geneProcessingEvents _ _
    | exact noMeta_ite _ (noMeta_contentChars _) noMeta_nil

/-! ## Claim C9 -/

/-- C9: in every event sequence produced by either streaming orchestrator,
every `"content"` event strictly precedes every `"metadata"` event — the
metadata event, when emitted at all (the bean-data short circuit ends with a
`bean_complete` event instead), is the final event of the sequence. -/
theorem stream_metadata_after_content (o : StreamOracle) (question : String) :
    (∀ (i j : ℕ) (m : MetaPayload) (c : String),
      (answer_question_stream o question)[i]? = some (Event.metadata m) →
      (answer_question_stream o question)[j]? = some (Event.content c) → j < i) ∧
    (∀ (i j : ℕ) (m : MetaPayload) (c : String),
      (continue_with_research_stream o)[i]? = some (Event.metadata m) →
      (continue_with_research_stream o)[j]? = some (Event.content c) → j < i) := by
  obtain ⟨l, p, hshape, hl⟩ := researchEvents_shape o
  constructor
  · simp only [answer_question_stream]
    by_cases hg : o.is_genetic = true
    · rw [if_pos hg, hshape, ← List.append_assoc]
      apply content_before_metadata_shape
      repeat' apply noMeta_append
      all_goals first
        | exact noMeta_singleton_progress _ _
        | exact hl
    · rw [if_neg hg]
      by_cases hb : hasBeanKeywords question = true
      · rw [if_pos hb]
        rcases hf : o.fnCall with _ | ⟨nm, args⟩
        · simp only [hf]
          rw [hshape]
          simp only [← List.append_assoc]
          apply content_before_metadata_shape
          repeat' apply noMeta_append
          all_goals first
            | exact noMeta_singleton_progress _ _
            | exact noMeta_contentChars _
            | exact hl
        · simp only [hf]
          by_cases hnm : nm = "query_bean_data"
          · rw [if_pos hnm]
            by_cases hprev : (o.answer_bean_query args).1 ≠ "" ∧
                ¬ pyStartsWith (pyStrip (o.answer_bean_query args).1)
                  "## 🔍 **Dataset Query Results**\n\nNo matching"
            · rw [if_pos hprev]
              apply no_metadata_vacuous
              repeat' apply noMeta_append
              all_goals first
                | exact noMeta_singleton_progress _ _
                | exact noMeta_contentChars _
                | exact noMeta_singleton_beanComplete _
            · rw [if_neg hprev, hshape]
              simp only [← List.append_assoc]
              apply content_before_metadata_shape
              repeat' apply noMeta_append
              all_goals first
                | exact noMeta_singleton_progress _ _
                | exact hl
          · rw [if_neg hnm, hshape]
            simp only [← List.append_assoc]
            apply content_before_metadata_shape
            repeat' apply noMeta_append
            all_goals first
              | exact noMeta_singleton_progress _ _
              | exact hl
      · rw [if_neg hb, hshape]
        simp only [← List.append_assoc]
        apply content_before_metadata_shape
        repeat' apply noMeta_append
        all_goals first
          | exact noMeta_singleton_progress _ _
          | exact noMeta_contentChars _
          | exact hl
  · obtain ⟨l2, p2, hshape2, hl2⟩ := continueStream_shape o
    rw [hshape2]
    exact content_before_metadata_shape hl2

/-- A concrete stream oracle: genetics question, empty match sets, one
streamed chunk `"hi"`, no gene mentions. -/
def oC9 : StreamOracle :=
  { is_genetic := true, fnCall := none, answer_bean_query := fun _ => ("", "", []),
    summary_answer := "", bge_res := ⟨[]⟩, pub_res := ⟨[]⟩, alpha := 1/2, top_k := 10,
    upstream := ⟨[some "hi"], none⟩, extract := fun _ => .ok ([], [], []),
    lookups := lkNone }

set_option maxRecDepth 100000 in
/-- Witness for C9 at a concrete oracle: in both streams, a concrete content
event precedes the metadata event. -/
theorem c9_witness :
    (answer_question_stream oC9 "q")[10]? = some (Event.metadata ⟨[], [], "", [], []⟩) ∧
    (answer_question_stream oC9 "q")[6]? = some (Event.content "hi") ∧
    (6 : ℕ) < 10 ∧
    (continue_with_research_stream oC9)[127]? = some (Event.metadata ⟨[], [], "", [], []⟩) ∧
    (continue_with_research_stream oC9)[0]? = some (Event.content "\n") ∧
    (0 : ℕ) < 127 := by
  have h := stream_metadata_after_content oC9 "q"
  refine ⟨?_, ?_, ?_, ?_, ?_, ?_⟩
  · decide
  · decide
  · exact h.1 10 6 ⟨[], [], "", [], []⟩ "hi" (by decide) (by decide)
  · decide
  · decide
  · exact h.2 127 0 ⟨[], [], "", [], []⟩ "\n" (by decide) (by decide)

end BeanGPT
